import Mathlib

/-!
Shallow embedding of the indicator engine of the stock_trade_engine
repository (src/Technical_indicator/tech_ma.py and
src/Technical_indicator/tech_bbands.py).

Scalar values are modelled as real numbers. A pandas cell that may be
NaN is modelled as Option ℝ, with none playing the role of NaN: the
rolling aggregations return NaN at every position that lacks a full
window (min_periods equals the window size in both source files), and
elementwise arithmetic propagates NaN. The two series produced by
floating-point division (bb_bandwidth and bb_percent_b) can also take
infinite values, so they are modelled by the type PFloat below, which
distinguishes NaN from the two infinities.
-/

noncomputable section

namespace StockTradeEngine

/-- The arithmetic mean of a list of values, as the pandas mean of a
window computes it: sum divided by length. -/
def listMean (l : List ℝ) : ℝ := l.sum / l.length

/-- The trailing window of the rolling computation at position i with
window size p: pandas rolling(window=p) aggregates over the positions
i+1-p .. i inclusive. -/
def trailingWindow (close : List ℝ) (p i : ℕ) : List ℝ :=
  (close.take (i + 1)).drop (i + 1 - p)

/-- tech_ma.py line 15: close.rolling(window=period).mean() at position i.
For an integer window pandas defaults min_periods to the window size, so
the value is NaN (none) until period observations are available. -/
def smaAt (close : List ℝ) (p i : ℕ) : Option ℝ :=
  if 1 ≤ p ∧ p ≤ i + 1 ∧ i < close.length then
    some (listMean (trailingWindow close p i))
  else none

/-- tech_ma.py simple_moving_average: the sma column of the returned
frame, index-aligned with the input series. -/
def simple_moving_average (close : List ℝ) (p : ℕ) : List (Option ℝ) :=
  (List.range close.length).map (smaAt close p)

/-- Sample variance of a window, as pandas std(ddof=1) computes it
before the square root: the sum of squared deviations from the window
mean, divided by n − 1. -/
def sampleVar (l : List ℝ) : ℝ :=
  (l.map (fun x => (x - listMean l) ^ 2)).sum / ((l.length : ℝ) - 1)

/-- tech_bbands.py line 25: the middle band,
close.rolling(window=period, min_periods=period).mean() at position i.
Identical semantics to the sma of tech_ma.py. -/
def bbMiddle (close : List ℝ) (p i : ℕ) : Option ℝ := smaAt close p i

/-- tech_bbands.py line 26:
close.rolling(window=period, min_periods=period).std() at position i.
pandas std uses the sample (ddof = 1) convention, so a one-element
window (period = 1) gives NaN; otherwise the value is defined exactly
when the trailing window is full. -/
def bbStd (close : List ℝ) (p i : ℕ) : Option ℝ :=
  if 2 ≤ p ∧ p ≤ i + 1 ∧ i < close.length then
    some (Real.sqrt (sampleVar (trailingWindow close p i)))
  else none

/-- tech_bbands.py line 29: bb_upper = bb_middle + times * bb_std, with
NaN propagating through the elementwise arithmetic. -/
def bbUpper (close : List ℝ) (p : ℕ) (t : ℝ) (i : ℕ) : Option ℝ :=
  match bbMiddle close p i, bbStd close p i with
  | some m, some s => some (m + t * s)
  | _, _ => none

/-- tech_bbands.py line 30: bb_lower = bb_middle - times * bb_std, with
NaN propagating through the elementwise arithmetic. -/
def bbLower (close : List ℝ) (p : ℕ) (t : ℝ) (i : ℕ) : Option ℝ :=
  match bbMiddle close p i, bbStd close p i with
  | some m, some s => some (m - t * s)
  | _, _ => none

/-- The input value at position i (the series is only read at positions
below its length, so the default value is never observed). -/
def closeAt (close : List ℝ) (i : ℕ) : ℝ := close.getD i 0

/-- tech_bbands.py line 33: (close > bb_upper).astype(int). A pandas
comparison against NaN evaluates to False, so a missing upper band
yields the integer 0, not a missing value. -/
def bbBreakUpper (close : List ℝ) (p : ℕ) (t : ℝ) (i : ℕ) : ℤ :=
  match bbUpper close p t i with
  | some u => if u < closeAt close i then 1 else 0
  | none => 0

/-- tech_bbands.py line 34: (close < bb_lower).astype(int), with the
same NaN-comparison behaviour as bbBreakUpper. -/
def bbBreakLower (close : List ℝ) (p : ℕ) (t : ℝ) (i : ℕ) : ℤ :=
  match bbLower close p t i with
  | some l => if closeAt close i < l then 1 else 0
  | none => 0

/-- The value domain of the two division-derived columns: IEEE-style
floating-point results, distinguishing NaN from the signed infinities
that numpy division by zero produces. -/
inductive PFloat where
  | nan : PFloat
  | inf : PFloat
  | ninf : PFloat
  | fin : ℝ → PFloat

/-- Division of two finite floating-point values as numpy performs it:
a zero denominator gives NaN when the numerator is also zero and a
signed infinity otherwise; any other denominator gives the finite
quotient. No exception is ever raised. -/
def fdiv (x y : ℝ) : PFloat :=
  if y = 0 then
    if x = 0 then PFloat.nan else if 0 < x then PFloat.inf else PFloat.ninf
  else PFloat.fin (x / y)

/-- tech_bbands.py line 37: bb_bandwidth = (bb_upper - bb_lower) / bb_middle.
A NaN in any operand propagates; otherwise numpy float division applies. -/
def bbBandwidth (close : List ℝ) (p : ℕ) (t : ℝ) (i : ℕ) : PFloat :=
  match bbUpper close p t i, bbLower close p t i, bbMiddle close p i with
  | some u, some l, some m => fdiv (u - l) m
  | _, _, _ => PFloat.nan

/-- tech_bbands.py line 40: bb_percent_b = (close - bb_lower) / (bb_upper - bb_lower).
A NaN in bb_upper or bb_lower propagates; otherwise numpy float
division applies. -/
def bbPercentB (close : List ℝ) (p : ℕ) (t : ℝ) (i : ℕ) : PFloat :=
  match bbUpper close p t i, bbLower close p t i with
  | some u, some l => fdiv (closeAt close i - l) (u - l)
  | _, _ => PFloat.nan

/-- The frame returned by bbands: seven columns, each index-aligned with
the input series. -/
structure BBandsFrame where
  bb_middle : List (Option ℝ)
  bb_upper : List (Option ℝ)
  bb_lower : List (Option ℝ)
  bb_break_upper : List ℤ
  bb_break_lower : List ℤ
  bb_bandwidth : List PFloat
  bb_percent_b : List PFloat

/-- tech_bbands.py bbands: the returned DataFrame, one row per input
position. -/
def bbands (close : List ℝ) (p : ℕ) (t : ℝ) : BBandsFrame where
  bb_middle := (List.range close.length).map (bbMiddle close p)
  bb_upper := (List.range close.length).map (bbUpper close p t)
  bb_lower := (List.range close.length).map (bbLower close p t)
  bb_break_upper := (List.range close.length).map (bbBreakUpper close p t)
  bb_break_lower := (List.range close.length).map (bbBreakLower close p t)
  bb_bandwidth := (List.range close.length).map (bbBandwidth close p t)
  bb_percent_b := (List.range close.length).map (bbPercentB close p t)

theorem trailingWindow_eq_take_drop (close : List ℝ) (p i : ℕ) (h : p ≤ i + 1) :
    trailingWindow close p i = (close.drop (i + 1 - p)).take p := by
  rw [trailingWindow, List.drop_take]
  congr 1
  omega

theorem length_trailingWindow (close : List ℝ) (p i : ℕ)
    (h1 : p ≤ i + 1) (h2 : i < close.length) :
    (trailingWindow close p i).length = p := by
  rw [trailingWindow]
  rw [List.length_drop, List.length_take]
  omega

theorem trailingWindow_period_one (S : List ℝ) (i : ℕ) (hi : i < S.length) :
    trailingWindow S 1 i = [S.get ⟨i, hi⟩] := by
  rw [trailingWindow_eq_take_drop S 1 i (by omega), Nat.add_sub_cancel,
    List.drop_eq_getElem_cons hi]
  rfl

theorem bbMiddle_eq_some (close : List ℝ) (p i : ℕ) (m : ℝ)
    (h : bbMiddle close p i = some m) :
    1 ≤ p ∧ p ≤ i + 1 ∧ i < close.length ∧
      m = listMean (trailingWindow close p i) := by
  rw [bbMiddle, smaAt] at h
  split_ifs at h with hc
  exact ⟨hc.1, hc.2.1, hc.2.2, (Option.some_injective ℝ h).symm⟩

theorem bbStd_eq_some (close : List ℝ) (p i : ℕ) (s : ℝ)
    (h : bbStd close p i = some s) :
    2 ≤ p ∧ p ≤ i + 1 ∧ i < close.length ∧
      s = Real.sqrt (sampleVar (trailingWindow close p i)) := by
  rw [bbStd] at h
  split_ifs at h with hc
  exact ⟨hc.1, hc.2.1, hc.2.2, (Option.some_injective ℝ h).symm⟩

theorem bbStd_nonneg (close : List ℝ) (p i : ℕ) (s : ℝ)
    (h : bbStd close p i = some s) : 0 ≤ s := by
  rcases bbStd_eq_some close p i s h with ⟨-, -, -, hs⟩
  rw [hs]
  exact Real.sqrt_nonneg _

theorem bbUpper_eq_some (close : List ℝ) (p : ℕ) (t : ℝ) (i : ℕ) (u : ℝ)
    (h : bbUpper close p t i = some u) :
    ∃ m s, bbMiddle close p i = some m ∧ bbStd close p i = some s ∧
      u = m + t * s := by
  rcases hm : bbMiddle close p i with _ | m <;>
    rcases hs : bbStd close p i with _ | s <;>
      rw [bbUpper, hm, hs] at h <;> simp only [Option.some.injEq] at h
  · exact absurd h (by simp)
  · exact absurd h (by simp)
  · exact absurd h (by simp)
  · exact ⟨m, s, rfl, rfl, h.symm⟩

theorem bbLower_eq_some (close : List ℝ) (p : ℕ) (t : ℝ) (i : ℕ) (l : ℝ)
    (h : bbLower close p t i = some l) :
    ∃ m s, bbMiddle close p i = some m ∧ bbStd close p i = some s ∧
      l = m - t * s := by
  rcases hm : bbMiddle close p i with _ | m <;>
    rcases hs : bbStd close p i with _ | s <;>
      rw [bbLower, hm, hs] at h <;> simp only [Option.some.injEq] at h
  · exact absurd h (by simp)
  · exact absurd h (by simp)
  · exact absurd h (by simp)
  · exact ⟨m, s, rfl, rfl, h.symm⟩

theorem closeAt_mem_trailingWindow (close : List ℝ) (p i : ℕ)
    (hp : 1 ≤ p) (hpi : p ≤ i + 1) (hi : i < close.length) :
    closeAt close i ∈ trailingWindow close p i := by
  rw [trailingWindow_eq_take_drop close p i hpi]
  have hlt : p - 1 < ((close.drop (i + 1 - p)).take p).length := by
    rw [List.length_take, List.length_drop]
    omega
  refine List.mem_iff_getElem.2 ⟨p - 1, hlt, ?_⟩
  rw [List.getElem_take, List.getElem_drop]
  rw [closeAt, List.getD_eq_getElem?_getD, List.getElem?_eq_getElem hi]
  simp only [Option.getD_some]
  congr 1
  omega

theorem eq_listMean_of_sampleVar_eq_zero (l : List ℝ) (hl : 2 ≤ l.length)
    (h : sampleVar l = 0) (x : ℝ) (hx : x ∈ l) : x = listMean l := by
  rw [sampleVar, div_eq_zero_iff] at h
  have hden : ((l.length : ℝ) - 1) ≠ 0 := by
    have h2 : (2 : ℝ) ≤ (l.length : ℝ) := by exact_mod_cast hl
    intro hc
    linarith
  rcases h with h | h
  · have hsq : (x - listMean l) ^ 2 = 0 := by
      refine List.all_zero_of_le_zero_le_of_sum_eq_zero ?_ h ?_
      · intro y hy
        rcases List.mem_map.1 hy with ⟨z, -, rfl⟩
        exact sq_nonneg _
      · exact List.mem_map.2 ⟨x, hx, rfl⟩
    have := sq_eq_zero_iff.1 hsq
    linarith [sub_eq_zero.1 this]
  · exact absurd h hden

/-- Claim C2: for every series S and period p ≥ 1, the sma value is
missing at every position i < p-1 and, at every position i ≥ p-1, equals
the arithmetic mean of the trailing window of the p elements ending at
position i. -/
theorem sma_window_spec (S : List ℝ) (p i : ℕ) (hp : 1 ≤ p) (hi : i < S.length) :
    (i < p - 1 → smaAt S p i = none) ∧
    (p - 1 ≤ i → smaAt S p i = some (((S.drop (i + 1 - p)).take p).sum / p)) := by
  constructor
  · intro h
    rw [smaAt, if_neg]
    intro hcon
    omega
  · intro h
    have hpi : p ≤ i + 1 := by omega
    rw [smaAt, if_pos ⟨hp, hpi, hi⟩, listMean,
      trailingWindow_eq_take_drop S p i hpi]
    have hlen : ((S.drop (i + 1 - p)).take p).length = p := by
      rw [← trailingWindow_eq_take_drop S p i hpi]
      exact length_trailingWindow S p i hpi hi
    rw [hlen]

theorem sma_window_spec_witness :
    smaAt [(1 : ℝ), 5] 2 0 = none ∧
    smaAt [(1 : ℝ), 5] 2 1 = some ((([(1 : ℝ), 5].drop 0).take 2).sum / 2) :=
  ⟨(sma_window_spec [(1 : ℝ), 5] 2 0 (by decide) (by decide)).1 (by decide),
   (sma_window_spec [(1 : ℝ), 5] 2 1 (by decide) (by decide)).2 (by decide)⟩

/-- Claim C8: with period 1 the sma series is the input series itself,
elementwise (each defined value equal to the corresponding input). -/
theorem sma_period_one_identity (S : List ℝ) :
    simple_moving_average S 1 = S.map some := by
  apply List.ext_getElem
  · simp [simple_moving_average]
  · intro i h1 h2
    simp only [simple_moving_average, List.getElem_map, List.getElem_range]
    have hi : i < S.length := by
      simpa [simple_moving_average] using h1
    rw [smaAt, if_pos ⟨le_refl 1, by omega, hi⟩,
      trailingWindow_period_one S i hi]
    simp [listMean]

/-- Claim C1 counterexample: on the series [10, 12] with period 2, the
upper band is undefined at position 0, yet both breakout flags there are
the defined integer 0, not a missing value. -/
theorem bb_break_missing_upper_cex :
    bbUpper [(10 : ℝ), 12] 2 2 0 = none ∧
    bbBreakUpper [(10 : ℝ), 12] 2 2 0 = 0 ∧
    bbBreakLower [(10 : ℝ), 12] 2 2 0 = 0 :=
  ⟨rfl, rfl, rfl⟩

/-- Claim C1 amended: at every position where the upper band is
undefined, the breakout flags are the defined integer 0 rather than a
missing value, because the pandas comparison against NaN evaluates to
False and astype(int) turns it into 0. -/
theorem bb_break_flags_zero_of_upper_missing (close : List ℝ) (p : ℕ) (t : ℝ)
    (i : ℕ) (h : bbUpper close p t i = none) :
    bbBreakUpper close p t i = 0 ∧ bbBreakLower close p t i = 0 := by
  rcases hm : bbMiddle close p i with _ | m <;>
    rcases hs : bbStd close p i with _ | s <;>
      simp [bbBreakUpper, bbBreakLower, bbUpper, bbLower, hm, hs] at h ⊢

theorem bb_break_flags_zero_of_upper_missing_witness :
    bbBreakUpper [(5 : ℝ), 7, 9] 3 2 1 = 0 ∧
    bbBreakLower [(5 : ℝ), 7, 9] 3 2 1 = 0 :=
  bb_break_flags_zero_of_upper_missing [(5 : ℝ), 7, 9] 3 2 1 rfl

/-- Claim C9: with period 1 the middle band equals the input at every
position, while the std band and everything derived from it is missing,
because the sample (n − 1 divisor) standard deviation of a one-element
window is undefined. -/
theorem bbands_period_one (close : List ℝ) (t : ℝ) (i : ℕ)
    (hi : i < close.length) :
    bbMiddle close 1 i = some (closeAt close i) ∧
    bbStd close 1 i = none ∧
    bbUpper close 1 t i = none ∧
    bbLower close 1 t i = none ∧
    bbBandwidth close 1 t i = PFloat.nan ∧
    bbPercentB close 1 t i = PFloat.nan := by
  have hs : bbStd close 1 i = none := by
    rw [bbStd, if_neg]
    intro hc
    omega
  have hm : bbMiddle close 1 i = some (closeAt close i) := by
    rw [bbMiddle, smaAt, if_pos ⟨le_refl 1, by omega, hi⟩,
      trailingWindow_period_one close i hi]
    rw [closeAt, List.getD_eq_getElem?_getD, List.getElem?_eq_getElem hi]
    simp [listMean]
  have hu : bbUpper close 1 t i = none := by
    simp [bbUpper, hm, hs]
  have hl : bbLower close 1 t i = none := by
    simp [bbLower, hm, hs]
  exact ⟨hm, hs, hu, hl, by simp [bbBandwidth, hu, hl, hm],
    by simp [bbPercentB, hu, hl]⟩

theorem bbands_period_one_witness :
    bbMiddle [(3 : ℝ)] 1 0 = some (closeAt [(3 : ℝ)] 0) ∧
    bbStd [(3 : ℝ)] 1 0 = none ∧
    bbUpper [(3 : ℝ)] 1 2 0 = none ∧
    bbLower [(3 : ℝ)] 1 2 0 = none ∧
    bbBandwidth [(3 : ℝ)] 1 2 0 = PFloat.nan ∧
    bbPercentB [(3 : ℝ)] 1 2 0 = PFloat.nan :=
  bbands_period_one [(3 : ℝ)] 2 0 (by decide)

/-- Claim C7: wherever the middle band, the std and both outer bands are
defined, the upper band exceeds the middle band by exactly times·std and
the middle band exceeds the lower band by exactly times·std. -/
theorem bb_band_symmetry (close : List ℝ) (p : ℕ) (t : ℝ) (i : ℕ)
    (m s u l : ℝ)
    (hm : bbMiddle close p i = some m) (hs : bbStd close p i = some s)
    (hu : bbUpper close p t i = some u) (hl : bbLower close p t i = some l) :
    u - m = t * s ∧ m - l = t * s := by
  rw [bbUpper, hm, hs] at hu
  rw [bbLower, hm, hs] at hl
  simp only [Option.some.injEq] at hu hl
  constructor
  · rw [← hu]
    ring
  · rw [← hl]
    ring

theorem bb_band_symmetry_witness :
    (listMean (trailingWindow [(10 : ℝ), 10] 2 1) +
        2 * Real.sqrt (sampleVar (trailingWindow [(10 : ℝ), 10] 2 1))) -
      listMean (trailingWindow [(10 : ℝ), 10] 2 1) =
      2 * Real.sqrt (sampleVar (trailingWindow [(10 : ℝ), 10] 2 1)) ∧
    listMean (trailingWindow [(10 : ℝ), 10] 2 1) -
      (listMean (trailingWindow [(10 : ℝ), 10] 2 1) -
        2 * Real.sqrt (sampleVar (trailingWindow [(10 : ℝ), 10] 2 1))) =
      2 * Real.sqrt (sampleVar (trailingWindow [(10 : ℝ), 10] 2 1)) :=
  bb_band_symmetry [(10 : ℝ), 10] 2 2 1 _ _ _ _ rfl rfl rfl rfl

/-- Claim C10: with a nonnegative multiplier, wherever the bands are
defined they are ordered lower ≤ middle ≤ upper, because the rolling
standard deviation is a square root and hence nonnegative. -/
theorem bb_band_ordering (close : List ℝ) (p : ℕ) (t : ℝ) (i : ℕ)
    (m u l : ℝ) (ht : 0 ≤ t)
    (hm : bbMiddle close p i = some m)
    (hu : bbUpper close p t i = some u) (hl : bbLower close p t i = some l) :
    l ≤ m ∧ m ≤ u := by
  obtain ⟨m1, s1, hm1, hs1, rfl⟩ := bbUpper_eq_some close p t i u hu
  obtain ⟨m2, s2, hm2, hs2, rfl⟩ := bbLower_eq_some close p t i l hl
  have em : m1 = m := Option.some_injective ℝ (hm1.symm.trans hm)
  have em2 : m2 = m := Option.some_injective ℝ (hm2.symm.trans hm)
  have es : s2 = s1 := Option.some_injective ℝ (hs2.symm.trans hs1)
  have hsn : 0 ≤ s1 := bbStd_nonneg close p i s1 hs1
  have hts : 0 ≤ t * s1 := mul_nonneg ht hsn
  subst em
  subst em2
  subst es
  constructor
  · linarith
  · linarith

theorem bb_band_ordering_witness :
    listMean (trailingWindow [(4 : ℝ), 4] 2 1) -
        1 * Real.sqrt (sampleVar (trailingWindow [(4 : ℝ), 4] 2 1)) ≤
      listMean (trailingWindow [(4 : ℝ), 4] 2 1) ∧
    listMean (trailingWindow [(4 : ℝ), 4] 2 1) ≤
      listMean (trailingWindow [(4 : ℝ), 4] 2 1) +
        1 * Real.sqrt (sampleVar (trailingWindow [(4 : ℝ), 4] 2 1)) :=
  bb_band_ordering [(4 : ℝ), 4] 2 1 1 _ _ _ (by norm_num) rfl rfl rfl

/-- Claim C4: with a multiplier in the documented positive domain, at
any position where the bands are defined and the band width is zero
(zero variance), percent_b is NaN, the explicit indeterminate marker,
and the division raises no error. -/
theorem bb_percent_b_degenerate (close : List ℝ) (p : ℕ) (t : ℝ) (i : ℕ)
    (u l : ℝ) (ht : 0 < t)
    (hu : bbUpper close p t i = some u) (hl : bbLower close p t i = some l)
    (hw : u - l = 0) :
    bbPercentB close p t i = PFloat.nan := by
  obtain ⟨m1, s1, hm1, hs1, rfl⟩ := bbUpper_eq_some close p t i u hu
  obtain ⟨m2, s2, hm2, hs2, rfl⟩ := bbLower_eq_some close p t i l hl
  have em2 : m2 = m1 := Option.some_injective ℝ (hm2.symm.trans hm1)
  have es : s2 = s1 := Option.some_injective ℝ (hs2.symm.trans hs1)
  subst em2
  subst es
  have hts : t * s2 = 0 := by linarith
  have hs0 : s2 = 0 := by
    rcases mul_eq_zero.1 hts with h0 | h0
    · exact absurd h0 (ne_of_gt ht)
    · exact h0
  rcases bbStd_eq_some close p i s2 hs1 with ⟨hp2, hpi, hilen, hsv⟩
  have hlen : (trailingWindow close p i).length = p :=
    length_trailingWindow close p i hpi hilen
  have hvar_nonneg : 0 ≤ sampleVar (trailingWindow close p i) := by
    rw [sampleVar]
    apply div_nonneg
    · apply List.sum_nonneg
      intro x hx
      rcases List.mem_map.1 hx with ⟨z, -, rfl⟩
      exact sq_nonneg _
    · rw [hlen]
      have h2 : (2 : ℝ) ≤ (p : ℝ) := by exact_mod_cast hp2
      linarith
  have hvar0 : sampleVar (trailingWindow close p i) = 0 := by
    have h0 : Real.sqrt (sampleVar (trailingWindow close p i)) = 0 := by
      rw [← hsv]
      exact hs0
    have hle := Real.sqrt_eq_zero'.1 h0
    linarith
  have hmem : closeAt close i ∈ trailingWindow close p i :=
    closeAt_mem_trailingWindow close p i (by omega) hpi hilen
  have hceq : closeAt close i = listMean (trailingWindow close p i) := by
    refine eq_listMean_of_sampleVar_eq_zero _ ?_ hvar0 _ hmem
    rw [hlen]
    exact hp2
  rcases bbMiddle_eq_some close p i m2 hm1 with ⟨-, -, -, hm_eq⟩
  rw [bbPercentB, hu, hl]
  have hnum : closeAt close i - (m2 - t * s2) = 0 := by
    rw [hceq, hm_eq, hs0]
    ring
  have hden : (m2 + t * s2) - (m2 - t * s2) = 0 := hw
  show fdiv (closeAt close i - (m2 - t * s2)) ((m2 + t * s2) - (m2 - t * s2)) =
    PFloat.nan
  rw [hnum, hden, fdiv, if_pos rfl, if_pos rfl]

theorem bb_percent_b_degenerate_witness :
    bbPercentB [(10 : ℝ), 10] 2 2 1 = PFloat.nan := by
  have hvar : sampleVar (trailingWindow [(10 : ℝ), 10] 2 1) = 0 := by
    have hW : trailingWindow [(10 : ℝ), 10] 2 1 = [10, 10] := rfl
    rw [hW]
    norm_num [sampleVar, listMean]
  exact bb_percent_b_degenerate [(10 : ℝ), 10] 2 2 1 _ _ (by norm_num) rfl rfl
    (by rw [hvar, Real.sqrt_zero]; ring)

/-- Claim C5 counterexample: on the series [-1, 1] with period 2 and
times 2, the middle band at position 1 is zero while the band width is
4·sqrt 2 > 0, and the bandwidth is the unmarked value +infinity, not a
missing/indeterminate marker. -/
theorem bb_bandwidth_inf_cex :
    bbBandwidth [(-1 : ℝ), 1] 2 2 1 = PFloat.inf := by
  have hW : trailingWindow [(-1 : ℝ), 1] 2 1 = [-1, 1] := rfl
  have hmean : listMean [(-1 : ℝ), 1] = 0 := by norm_num [listMean]
  have hvar : sampleVar [(-1 : ℝ), 1] = 2 := by
    norm_num [sampleVar, listMean]
  have hm : bbMiddle [(-1 : ℝ), 1] 2 1 = some 0 := by
    rw [bbMiddle, smaAt, if_pos ⟨by norm_num, by norm_num, by norm_num⟩, hW,
      hmean]
  have hs : bbStd [(-1 : ℝ), 1] 2 1 = some (Real.sqrt 2) := by
    rw [bbStd, if_pos ⟨by norm_num, by norm_num, by norm_num⟩, hW, hvar]
  have hu : bbUpper [(-1 : ℝ), 1] 2 2 1 = some (0 + 2 * Real.sqrt 2) := by
    rw [bbUpper, hm, hs]
  have hl : bbLower [(-1 : ℝ), 1] 2 2 1 = some (0 - 2 * Real.sqrt 2) := by
    rw [bbLower, hm, hs]
  rw [bbBandwidth, hu, hl, hm]
  show fdiv ((0 + 2 * Real.sqrt 2) - (0 - 2 * Real.sqrt 2)) 0 = PFloat.inf
  have hx : (0 + 2 * Real.sqrt 2) - (0 - 2 * Real.sqrt 2) = 4 * Real.sqrt 2 := by
    ring
  rw [hx]
  have hpos : 0 < 4 * Real.sqrt 2 := by positivity
  rw [fdiv, if_pos rfl, if_neg (ne_of_gt hpos), if_pos hpos]

/-- Claim C5 amended: a missing middle band makes the bandwidth NaN
(missing); a zero middle band makes the bandwidth NaN or a signed
infinity, never a finite value; in either case the division raises no
error, but a nonzero band width over a zero middle band is an unmarked
infinity rather than a missing marker. -/
theorem bb_bandwidth_zero_middle (close : List ℝ) (p : ℕ) (t : ℝ) (i : ℕ) :
    (bbMiddle close p i = none → bbBandwidth close p t i = PFloat.nan) ∧
    (bbMiddle close p i = some 0 →
      ∀ x : ℝ, bbBandwidth close p t i ≠ PFloat.fin x) := by
  constructor
  · intro hm
    rcases hu : bbUpper close p t i with _ | u <;>
      rcases hl : bbLower close p t i with _ | l <;>
        simp [bbBandwidth, hu, hl, hm]
  · intro hm x
    rcases hu : bbUpper close p t i with _ | u <;>
      rcases hl : bbLower close p t i with _ | l
    · simp [bbBandwidth, hu, hl]
    · simp [bbBandwidth, hu, hl]
    · simp [bbBandwidth, hu, hl]
    · rw [bbBandwidth, hu, hl, hm]
      show fdiv (u - l) 0 ≠ PFloat.fin x
      rw [fdiv, if_pos rfl]
      split_ifs <;> simp

theorem bb_bandwidth_zero_middle_witness :
    bbBandwidth [(7 : ℝ)] 2 2 0 = PFloat.nan ∧
    bbBandwidth [(-2 : ℝ), 2] 2 3 1 ≠ PFloat.fin 5 := by
  have hm0 : bbMiddle [(-2 : ℝ), 2] 2 1 = some 0 := by
    rw [bbMiddle, smaAt, if_pos ⟨by norm_num, by norm_num, by norm_num⟩]
    norm_num [trailingWindow, listMean]
  exact ⟨(bb_bandwidth_zero_middle [(7 : ℝ)] 2 2 0).1 rfl,
    (bb_bandwidth_zero_middle [(-2 : ℝ), 2] 2 3 1).2 hm0 5⟩

/-- Claim C6 counterexample: the sources validate nothing: with period 0
the sma call proceeds and returns a missing value rather than raising,
and with times = -1 the band computation proceeds and returns the
defined value 10 for the upper band on [10, 10]. -/
theorem no_param_validation_cex :
    smaAt [(5 : ℝ)] 0 0 = none ∧
    bbUpper [(10 : ℝ), 10] 2 (-1) 1 = some 10 := by
  constructor
  · rfl
  · have hvar : sampleVar (trailingWindow [(10 : ℝ), 10] 2 1) = 0 := by
      have hW : trailingWindow [(10 : ℝ), 10] 2 1 = [10, 10] := rfl
      rw [hW]
      norm_num [sampleVar, listMean]
    have hm : bbMiddle [(10 : ℝ), 10] 2 1 = some 10 := by
      rw [bbMiddle, smaAt, if_pos ⟨by norm_num, by norm_num, by norm_num⟩]
      norm_num [trailingWindow, listMean]
    have hs : bbStd [(10 : ℝ), 10] 2 1 = some 0 := by
      rw [bbStd, if_pos ⟨by norm_num, by norm_num, by norm_num⟩, hvar,
        Real.sqrt_zero]
    rw [bbUpper, hm, hs]
    norm_num

/-- Claim C6 amended: neither operation rejects period ≤ 0 or times < 0
at the call boundary: with period 0 the windowing yields a missing value
at every position, and with times < 0 the band computation proceeds and
produces a defined upper band at every position with a full window. -/
theorem no_param_validation (close : List ℝ) (t : ℝ) (p i : ℕ)
    (hp : 2 ≤ p) (hpi : p ≤ i + 1) (hi : i < close.length) (ht : t < 0) :
    smaAt close 0 i = none ∧ ∃ u, bbUpper close p t i = some u := by
  constructor
  · rw [smaAt, if_neg]
    intro hc
    omega
  · refine ⟨listMean (trailingWindow close p i) +
      t * Real.sqrt (sampleVar (trailingWindow close p i)), ?_⟩
    rw [bbUpper, bbMiddle, smaAt, if_pos ⟨by omega, hpi, hi⟩, bbStd,
      if_pos ⟨hp, hpi, hi⟩]

theorem no_param_validation_witness :
    smaAt [(10 : ℝ), 12] 0 1 = none ∧
    ∃ u, bbUpper [(10 : ℝ), 12] 2 (-1) 1 = some u :=
  no_param_validation [(10 : ℝ), 12] (-1) 2 1 (by decide) (by decide)
    (by decide) (by norm_num)

/-- Claim C3: bb_std is the sample (n − 1 divisor) standard deviation of
the trailing period-sized window; on [10,10,10,10,10,12] with period 5
and times 2, position 5 has window mean 10.4 = 52/5, squared std 4/5
(hence std within 0.001 of 0.894), upper band within 0.01 of 12.19,
lower band within 0.01 of 8.61, and bb_break_upper 0. -/
theorem bbands_sample_std_example :
    (∀ (close : List ℝ) (p i : ℕ), 2 ≤ p → p ≤ i + 1 → i < close.length →
      bbStd close p i = some (Real.sqrt
        (((trailingWindow close p i).map
          (fun x => (x - listMean (trailingWindow close p i)) ^ 2)).sum /
          ((p : ℝ) - 1)))) ∧
    bbMiddle [(10 : ℝ), 10, 10, 10, 10, 12] 5 5 = some (52 / 5) ∧
    (∃ s, bbStd [(10 : ℝ), 10, 10, 10, 10, 12] 5 5 = some s ∧
      s ^ 2 = 4 / 5 ∧ |s - 0.894| < 0.001) ∧
    (∃ u, bbUpper [(10 : ℝ), 10, 10, 10, 10, 12] 5 2 5 = some u ∧
      |u - 12.19| < 0.01) ∧
    (∃ l, bbLower [(10 : ℝ), 10, 10, 10, 10, 12] 5 2 5 = some l ∧
      |l - 8.61| < 0.01) ∧
    bbBreakUpper [(10 : ℝ), 10, 10, 10, 10, 12] 5 2 5 = 0 := by
  have hgen : ∀ (close : List ℝ) (p i : ℕ), 2 ≤ p → p ≤ i + 1 →
      i < close.length → bbStd close p i = some (Real.sqrt
        (((trailingWindow close p i).map
          (fun x => (x - listMean (trailingWindow close p i)) ^ 2)).sum /
          ((p : ℝ) - 1))) := by
    intro close p i h2 hpi hi
    rw [bbStd, if_pos ⟨h2, hpi, hi⟩, sampleVar,
      length_trailingWindow close p i hpi hi]
  have hW : trailingWindow [(10 : ℝ), 10, 10, 10, 10, 12] 5 5 =
      [10, 10, 10, 10, 12] := rfl
  have hmean : listMean [(10 : ℝ), 10, 10, 10, 12] = 52 / 5 := by
    norm_num [listMean]
  have hvar : sampleVar [(10 : ℝ), 10, 10, 10, 12] = 4 / 5 := by
    norm_num [sampleVar, listMean]
  have hm : bbMiddle [(10 : ℝ), 10, 10, 10, 10, 12] 5 5 = some (52 / 5) := by
    rw [bbMiddle, smaAt, if_pos ⟨by norm_num, by norm_num, by norm_num⟩, hW,
      hmean]
  have hs : bbStd [(10 : ℝ), 10, 10, 10, 10, 12] 5 5 =
      some (Real.sqrt (4 / 5)) := by
    rw [bbStd, if_pos ⟨by norm_num, by norm_num, by norm_num⟩, hW, hvar]
  have hsq : Real.sqrt (4 / 5) ^ 2 = 4 / 5 :=
    Real.sq_sqrt (by norm_num)
  have hs_lb : (0.894 : ℝ) < Real.sqrt (4 / 5) :=
    (Real.lt_sqrt (by norm_num)).2 (by norm_num)
  have hs_ub : Real.sqrt (4 / 5) < 0.895 :=
    (Real.sqrt_lt' (by norm_num)).2 (by norm_num)
  have hu : bbUpper [(10 : ℝ), 10, 10, 10, 10, 12] 5 2 5 =
      some (52 / 5 + 2 * Real.sqrt (4 / 5)) := by
    rw [bbUpper, hm, hs]
  have hl : bbLower [(10 : ℝ), 10, 10, 10, 10, 12] 5 2 5 =
      some (52 / 5 - 2 * Real.sqrt (4 / 5)) := by
    rw [bbLower, hm, hs]
  refine ⟨hgen, hm, ⟨Real.sqrt (4 / 5), hs, hsq, abs_lt.2 ⟨by linarith, by linarith⟩⟩,
    ⟨52 / 5 + 2 * Real.sqrt (4 / 5), hu, abs_lt.2 ⟨by linarith, by linarith⟩⟩,
    ⟨52 / 5 - 2 * Real.sqrt (4 / 5), hl, abs_lt.2 ⟨by linarith, by linarith⟩⟩, ?_⟩
  rw [bbBreakUpper, hu]
  have hc : closeAt [(10 : ℝ), 10, 10, 10, 10, 12] 5 = 12 := rfl
  show (if 52 / 5 + 2 * Real.sqrt (4 / 5) <
      closeAt [(10 : ℝ), 10, 10, 10, 10, 12] 5 then (1 : ℤ) else 0) = 0
  rw [hc, if_neg (not_lt.2 (by linarith))]

theorem bbands_sample_std_example_witness :
    bbStd [(10 : ℝ), 12] 2 1 = some (Real.sqrt
      (((trailingWindow [(10 : ℝ), 12] 2 1).map
        (fun x => (x - listMean (trailingWindow [(10 : ℝ), 12] 2 1)) ^ 2)).sum /
        (((2 : ℕ) : ℝ) - 1))) :=
  bbands_sample_std_example.1 [(10 : ℝ), 12] 2 1 (by decide) (by decide)
    (by decide)

end StockTradeEngine
